import Mathlib

/-
Shallow embedding of the quantitative core of the Trading_model repository:
signal generation (momentum, moving-average crossover, z-score mean reversion),
signal-to-position translation, cost-adjusted return composition, and the
performance-metrics calculation of the backtesting engine.

Series are modelled positionally: a pandas Series becomes a `List ℚ` when it can
hold no NaN, and a `List (Option ℚ)` when NaN can arise (`none` plays NaN).
Pandas comparison semantics (`NaN cmp x` is false), `skipna` reductions, and the
NaN produced by `Series.diff` at the first row are reproduced explicitly.
-/

namespace TradingModel

/-- Mean of a rational list, as pandas computes it (sum divided by length). -/
def meanQ (l : List ℚ) : ℚ := l.sum / l.length

/-- Pandas `Series.pct_change(periods=k)` at position `i`: NaN for the first `k`
positions, otherwise `p[i] / p[i-k] - 1`.  This is the momentum series of
`MomentumStrategy.generate_signals`. -/
def pctChangeAt (k : ℕ) (p : List ℚ) (i : ℕ) : Option ℚ :=
  if k ≤ i then
    (p.get? i).bind (fun a => (p.get? (i - k)).map (fun b => a / b - 1))
  else none

/-- MomentumStrategy.generate_signals: start from an all-zero signal series, set
1 where momentum > 0 and -1 where momentum ≤ 0; positions where momentum is NaN
(the warm-up) satisfy neither comparison and keep the initial 0. -/
def momentumSignals (lookback : ℕ) (p : List ℚ) : List ℤ :=
  (List.range p.length).map (fun i =>
    match pctChangeAt lookback p i with
    | none => 0
    | some m => if 0 < m then 1 else -1)

/-- Pandas `Series.rolling(window=w).mean()` at position `i`: NaN while fewer
than `w` observations are available, otherwise the mean of `p[i+1-w .. i]`. -/
def rollingMeanAt (w : ℕ) (p : List ℚ) (i : ℕ) : Option ℚ :=
  if 1 ≤ w ∧ w ≤ i + 1 ∧ i < p.length then
    some (meanQ ((p.drop (i + 1 - w)).take w))
  else none

/-- MovingAverageCrossover.generate_signals: start from an all-zero series, set
1 where `ma_fast > ma_slow` and -1 where `ma_fast <= ma_slow`; positions where
either rolling mean is NaN satisfy neither comparison and keep the 0. -/
def crossoverSignals (fast slow : ℕ) (p : List ℚ) : List ℤ :=
  (List.range p.length).map (fun i =>
    match rollingMeanAt fast p i, rollingMeanAt slow p i with
    | some f, some s => if s < f then 1 else -1
    | _, _ => 0)

/-- Pandas `Series.rolling(window=w).std()` squared, at position `i`: the
sample variance (`ddof=1`) of the window `p[i+1-w .. i]`.  NaN while fewer than
`w` observations are available, and NaN for `w ≤ 1` where the `w - 1`
denominator degenerates. -/
def rollingVarAt (w : ℕ) (p : List ℚ) (i : ℕ) : Option ℚ :=
  if 2 ≤ w ∧ w ≤ i + 1 ∧ i < p.length then
    some ((((p.drop (i + 1 - w)).take w).map
      (fun x => (x - meanQ ((p.drop (i + 1 - w)).take w)) ^ 2)).sum / (w - 1))
  else none

/-- Z-score of MeanReversionZScore: `(price - rolling_mean) / rolling_std`.
NaN where a rolling statistic is NaN; when the rolling standard deviation is
exactly 0 the window is constant, the numerator is exactly 0, and the float
quotient 0/0 is NaN, so the zero-variance case is NaN as well. -/
noncomputable def zscoreAt (w : ℕ) (p : List ℚ) (i : ℕ) : Option ℝ :=
  match rollingMeanAt w p i, rollingVarAt w p i with
  | some μ, some v =>
      if v = 0 then none
      else some ((((p.get? i).getD 0 : ℚ) - μ) / Real.sqrt (v : ℝ))
  | _, _ => none

/-- MeanReversionZScore.generate_signals: start from an all-zero series, set -1
where `zscore > threshold`, then set 1 where `zscore < -threshold` (the second
assignment overwrites the first wherever both comparisons hold); NaN z-scores
satisfy neither comparison and keep the 0. -/
noncomputable def meanReversionSignals (w : ℕ) (threshold : ℚ) (p : List ℚ) : List ℤ :=
  (List.range p.length).map (fun i =>
    match zscoreAt w p i with
    | none => 0
    | some z => if z < -(threshold : ℝ) then 1 else if (threshold : ℝ) < z then -1 else 0)

/-- BaseStrategy.get_positions: `signals.shift(1).fillna(0)` — the first output
row is the filled 0, every later row carries the previous signal.  Values are
the floats pandas produces after the shift. -/
def getPositions (signals : List ℤ) : List ℚ :=
  match signals with
  | [] => []
  | _ :: _ => 0 :: (signals.dropLast.map (fun z : ℤ => (z : ℚ)))

/-- Pandas `Series.diff()`: NaN at the first row, `x[i] - x[i-1]` afterwards. -/
def diffList (xs : List ℚ) : List (Option ℚ) :=
  match xs with
  | [] => []
  | x :: t => none :: List.zipWith (fun a b => some (a - b)) t (x :: t)

/-- Trade indicator of Backtester.run: `positions.diff().abs()`. -/
def tradesList (pos : List ℚ) : List (Option ℚ) :=
  (diffList pos).map (Option.map (fun d => |d|))

/-- Transaction costs of Backtester.run: `trades * transaction_cost`.  The NaN
of the first trade row survives the multiplication (NaN times anything is
NaN, including NaN times 0). -/
def costsList (pos : List ℚ) (c : ℚ) : List (Option ℚ) :=
  (tradesList pos).map (Option.map (fun t => t * c))

/-- Net strategy returns of Backtester.run: `positions * returns_series` minus
`costs`, elementwise; subtracting the NaN first cost yields NaN. -/
def strategyReturns (pos rets : List ℚ) (c : ℚ) : List (Option ℚ) :=
  List.zipWith (fun g oc => oc.map (fun cost => g - cost))
    (List.zipWith (fun a b => a * b) pos rets) (costsList pos c)

/-- Pandas `Series.cumprod()` with its default `skipna=True`: a NaN row stays
NaN in the output and is skipped by the running product.  `acc` is the product
of the non-NaN factors consumed so far. -/
def cumprodGo (acc : ℚ) : List (Option ℚ) → List (Option ℚ)
  | [] => []
  | none :: t => none :: cumprodGo acc t
  | some x :: t => some (acc * x) :: cumprodGo (acc * x) t

/-- Equity curve of Backtester.run: `(1 + strategy_returns).cumprod()`. -/
def cumulativeReturns (sr : List (Option ℚ)) : List (Option ℚ) :=
  cumprodGo 1 (sr.map (Option.map (fun r => 1 + r)))

/-- Pandas `Series.cummax()` with `skipna=True`: NaN rows stay NaN, every other
row is the maximum of the non-NaN values seen so far.  `cur` is that running
maximum, when any non-NaN value has been seen. -/
def cummaxGo (cur : Option ℚ) : List (Option ℚ) → List (Option ℚ)
  | [] => []
  | none :: t => none :: cummaxGo cur t
  | some x :: t =>
      let m := match cur with | none => x | some c => max c x
      some m :: cummaxGo (some m) t

/-- One cell of the drawdown series: `(equity - running_max) / running_max`.
A zero running maximum forces a zero numerator (the running product is then 0
as well), so the float quotient is NaN in that case; NaN rows stay NaN. -/
def ddCell (oe om : Option ℚ) : Option ℚ :=
  match oe, om with
  | some e, some m => if m = 0 then none else some ((e - m) / m)
  | _, _ => none

/-- Drawdown series of Backtester._calculate_metrics:
`(cum_returns - rolling_max) / rolling_max` elementwise. -/
def drawdownList (cum : List (Option ℚ)) : List (Option ℚ) :=
  List.zipWith ddCell cum (cummaxGo none cum)

/-- Minimum of a rational list, `none` on the empty list. -/
def minQ? : List ℚ → Option ℚ
  | [] => none
  | x :: t =>
      some (match minQ? t with
            | none => x
            | some m => min x m)

/-- Pandas `Series.min()` with `skipna=True`: minimum of the non-NaN rows. -/
def minimumSkipNA (xs : List (Option ℚ)) : Option ℚ :=
  minQ? (xs.filterMap id)

/-- Max Drawdown of Backtester._calculate_metrics, as a function of the equity
curve: `((cum - cum.cummax()) / cum.cummax()).min()`. -/
def maxDrawdownOf (cum : List (Option ℚ)) : Option ℚ :=
  minimumSkipNA (drawdownList cum)

/-- Cumulative product `(1 + rets).cumprod()` over a NaN-free series, used for
the buy-and-hold benchmark curve. -/
def cumprodQ (acc : ℚ) : List ℚ → List ℚ
  | [] => []
  | r :: t => (acc * (1 + r)) :: cumprodQ (acc * (1 + r)) t

/-- Sample variance (pandas `Series.std()` squared, `ddof=1`): NaN for fewer
than two observations. -/
def sampleVar (l : List ℚ) : Option ℚ :=
  if l.length < 2 then none
  else some ((l.map (fun x => (x - meanQ l) ^ 2)).sum / (l.length - 1))

/-- The thirteen scalar fields of Backtester._calculate_metrics.  Fields that
the float code can leave as NaN are `Option`-valued (`none` plays NaN); fields
computed behind a guard that excludes NaN are plain values. -/
structure Metrics where
  totalReturn : Option ℚ
  cagr : Option ℝ
  volatility : Option ℝ
  sharpe : ℝ
  maxDrawdown : Option ℚ
  calmar : Option ℝ
  winRate : ℚ
  totalTrades : ℕ
  avgWin : ℚ
  avgLoss : ℚ
  winLoss : ℚ
  buyHoldReturn : Option ℚ
  outperformance : Option ℚ

/-- Backtester._calculate_metrics.  Inputs are the stored
`strategy_returns` series and the stored benchmark curve
`buy_hold_cumulative`; the result is `none` when either `iloc[-1]` lookup
raises on an empty series, otherwise the metrics table.  `returns` is the
`dropna()` of the strategy returns; `n_years > 0` is `0 < returns.length`;
`returns.std() > 0` is `0 < v` for the sample variance `v` (false for the NaN
variance of fewer than two observations). -/
noncomputable def calcMetrics (stratRets : List (Option ℚ)) (bhCum : List (Option ℚ)) :
    Option Metrics :=
  let returns := stratRets.filterMap id
  let cum := cumulativeReturns stratRets
  match cum.getLast?, bhCum.getLast? with
  | some lastCum, some lastBh =>
    let totalReturn : Option ℚ := lastCum.map (fun v => v - 1)
    let nDays := returns.length
    let cagr : Option ℝ :=
      if 0 < nDays then
        totalReturn.map (fun tr => ((1 + tr : ℚ) : ℝ) ^ ((252 : ℝ) / (nDays : ℝ)) - 1)
      else some 0
    let svar := sampleVar returns
    let volatility : Option ℝ :=
      svar.map (fun v => Real.sqrt (v : ℝ) * Real.sqrt 252)
    let sharpe : ℝ :=
      match svar with
      | some v =>
          if 0 < v then ((meanQ returns : ℝ) * 252) / (Real.sqrt (v : ℝ) * Real.sqrt 252)
          else 0
      | none => 0
    let mdd := maxDrawdownOf cum
    let calmar : Option ℝ :=
      match mdd with
      | some m => if m = 0 then some 0 else cagr.map (fun cg => cg / |(m : ℝ)|)
      | none => none
    let wins := (returns.filter (fun r => decide (0 < r))).length
    let totalTrades := (returns.filter (fun r => decide (r ≠ 0))).length
    let winRate : ℚ := if 0 < totalTrades then (wins : ℚ) / (totalTrades : ℚ) else 0
    let posRets := returns.filter (fun r => decide (0 < r))
    let negRets := returns.filter (fun r => decide (r < 0))
    let avgWin : ℚ := if 0 < posRets.length then meanQ posRets else 0
    let avgLoss : ℚ := if 0 < negRets.length then meanQ negRets else 0
    let winLoss : ℚ := if avgLoss ≠ 0 then |avgWin / avgLoss| else 0
    let buyHoldReturn : Option ℚ := lastBh.map (fun v => v - 1)
    let outperformance : Option ℚ :=
      match totalReturn, buyHoldReturn with
      | some a, some b => some (a - b)
      | _, _ => none
    some {
      totalReturn := totalReturn
      cagr := cagr
      volatility := volatility
      sharpe := sharpe
      maxDrawdown := mdd
      calmar := calmar
      winRate := winRate
      totalTrades := totalTrades
      avgWin := avgWin
      avgLoss := avgLoss
      winLoss := winLoss
      buyHoldReturn := buyHoldReturn
      outperformance := outperformance }
  | _, _ => none

/-- Result bundle stored by Backtester.run. -/
structure RunResult where
  signals : List ℤ
  positions : List ℚ
  strategyReturns : List (Option ℚ)
  cumulativeReturns : List (Option ℚ)
  buyHoldCumulative : List ℚ
  metrics : Option Metrics

/-- Backtester.run for one strategy/price-series pair, with the repository's
data layout (DataCollector.calculate_returns): the returns series carries the
price index minus its first timestamp, so reindexing the positions onto the
returns index keeps every position but the first.  `initialCapital` and
`transactionCost` are the two constructor arguments of Backtester; the price
series enters only through the strategy's signal function. -/
noncomputable def runBacktest (initialCapital transactionCost : ℚ)
    (sig : List ℚ → List ℤ) (prices rets : List ℚ) : RunResult :=
  let signals := sig prices
  let positions := (getPositions signals).drop 1
  let stratRet := strategyReturns positions rets transactionCost
  let cumRet := cumulativeReturns stratRet
  let bh := cumprodQ 1 rets
  { signals := signals
    positions := positions
    strategyReturns := stratRet
    cumulativeReturns := cumRet
    buyHoldCumulative := bh
    metrics := calcMetrics stratRet (bh.map some) }

/-- Element lookup of `List.zipWith`: defined exactly when both inputs are. -/
theorem get?_zipWith {α β γ : Type} (f : α → β → γ) (l₁ : List α) (l₂ : List β) (i : ℕ) :
    (List.zipWith f l₁ l₂).get? i =
      match l₁.get? i, l₂.get? i with
      | some a, some b => some (f a b)
      | _, _ => none := by
  induction l₁ generalizing l₂ i with
  | nil => cases l₂ <;> cases i <;> rfl
  | cons a t ih =>
    cases l₂ with
    | nil =>
      cases i with
      | zero => rfl
      | succ j => cases h : (a :: t).get? (j + 1) <;> simp [h]
    | cons b t₂ =>
      cases i with
      | zero => rfl
      | succ j => simpa using ih t₂ j

theorem momentumSignals_length (lookback : ℕ) (p : List ℚ) :
    (momentumSignals lookback p).length = p.length := by
  simp [momentumSignals]

theorem momentumSignals_get? (lookback : ℕ) (p : List ℚ) (i : ℕ) (hi : i < p.length) :
    (momentumSignals lookback p).get? i =
      some (match pctChangeAt lookback p i with
            | none => 0
            | some m => if 0 < m then 1 else -1) := by
  rw [List.get?_eq_getElem?]
  simp [momentumSignals, List.getElem?_map, List.getElem?_range hi]

theorem crossoverSignals_length (fast slow : ℕ) (p : List ℚ) :
    (crossoverSignals fast slow p).length = p.length := by
  simp [crossoverSignals]

theorem crossoverSignals_get? (fast slow : ℕ) (p : List ℚ) (i : ℕ) (hi : i < p.length) :
    (crossoverSignals fast slow p).get? i =
      some (match rollingMeanAt fast p i, rollingMeanAt slow p i with
            | some f, some s => if s < f then 1 else -1
            | _, _ => 0) := by
  rw [List.get?_eq_getElem?]
  simp [crossoverSignals, List.getElem?_map, List.getElem?_range hi]

theorem meanReversionSignals_length (w : ℕ) (threshold : ℚ) (p : List ℚ) :
    (meanReversionSignals w threshold p).length = p.length := by
  simp [meanReversionSignals]

theorem meanReversionSignals_get? (w : ℕ) (threshold : ℚ) (p : List ℚ) (i : ℕ)
    (hi : i < p.length) :
    (meanReversionSignals w threshold p).get? i =
      some (match zscoreAt w p i with
            | none => 0
            | some z =>
                if z < -(threshold : ℝ) then 1 else if (threshold : ℝ) < z then -1 else 0) := by
  rw [List.get?_eq_getElem?]
  simp [meanReversionSignals, List.getElem?_map, List.getElem?_range hi]

theorem getPositions_length (signals : List ℤ) :
    (getPositions signals).length = signals.length := by
  cases signals with
  | nil => rfl
  | cons a t =>
    show (0 :: ((a :: t).dropLast.map (fun z : ℤ => (z : ℚ)))).length = (a :: t).length
    rw [List.length_cons, List.length_map, List.length_dropLast]
    simp

theorem getPositions_get?_zero (signals : List ℤ) (h : signals ≠ []) :
    (getPositions signals).get? 0 = some 0 := by
  cases signals with
  | nil => exact absurd rfl h
  | cons a t => rfl

theorem getPositions_get?_succ (signals : List ℤ) (t : ℕ) (ht : t + 1 < signals.length) :
    (getPositions signals).get? (t + 1) = (signals.get? t).map (fun z : ℤ => (z : ℚ)) := by
  cases signals with
  | nil => simp at ht
  | cons a tl =>
    have hlt : t < (a :: tl).dropLast.length := by
      simp only [List.length_dropLast, List.length_cons] at *
      omega
    have hlt' : t < (a :: tl).length := by
      simp only [List.length_cons] at *
      omega
    have hdef : getPositions (a :: tl) =
        0 :: ((a :: tl).dropLast.map (fun z : ℤ => (z : ℚ))) := rfl
    rw [hdef, List.get?_cons_succ, List.get?_eq_getElem?, List.get?_eq_getElem?,
      List.getElem?_map]
    congr 1
    rw [List.getElem?_eq_getElem hlt, List.getElem?_eq_getElem hlt']
    rw [List.getElem_dropLast]

theorem diffList_length (xs : List ℚ) : (diffList xs).length = xs.length := by
  cases xs with
  | nil => rfl
  | cons x t => simp [diffList, List.length_zipWith]

theorem diffList_get?_zero (x : ℚ) (t : List ℚ) :
    (diffList (x :: t)).get? 0 = some none := rfl

theorem diffList_get?_succ (xs : List ℚ) (i : ℕ) (hi : i + 1 < xs.length) :
    (diffList xs).get? (i + 1) =
      match xs.get? (i + 1), xs.get? i with
      | some a, some b => some (some (a - b))
      | _, _ => none := by
  cases xs with
  | nil => simp at hi
  | cons x t =>
    have hdef : diffList (x :: t) =
        none :: List.zipWith (fun a b => some (a - b)) t (x :: t) := rfl
    rw [hdef, List.get?_cons_succ, get?_zipWith, List.get?_cons_succ]
    cases t.get? i <;> cases (x :: t).get? i <;> rfl

theorem strategyReturns_get? (pos rets : List ℚ) (c : ℚ) (i : ℕ) :
    (strategyReturns pos rets c).get? i =
      match pos.get? i, rets.get? i, (costsList pos c).get? i with
      | some a, some b, some oc => some (oc.map (fun cost => a * b - cost))
      | _, _, _ => none := by
  rw [strategyReturns, get?_zipWith, get?_zipWith]
  cases pos.get? i <;> cases rets.get? i <;> cases (costsList pos c).get? i <;> rfl

theorem costsList_get? (pos : List ℚ) (c : ℚ) (i : ℕ) :
    (costsList pos c).get? i =
      ((diffList pos).get? i).map (Option.map (fun d => |d| * c)) := by
  rw [costsList, tradesList, List.get?_eq_getElem?, List.getElem?_map, List.getElem?_map]
  rw [List.get?_eq_getElem?]
  cases h : (diffList pos)[i]? with
  | none => rfl
  | some o => cases o <;> rfl

/-- C1 (counterexample): at lookback 2 on prices [1, 2, 3], timestamp 0 is a
warm-up timestamp (its momentum is undefined), yet its signal is 0 and not the
-1 the claim asserts: a NaN momentum satisfies neither `momentum > 0` nor
`momentum <= 0`, so the initial 0 survives. -/
theorem momentum_warmup_counterexample :
    pctChangeAt 2 [1, 2, 3] 0 = none ∧
    (momentumSignals 2 [1, 2, 3]).get? 0 = some 0 ∧
    (0 : ℤ) ≠ -1 := by
  refine ⟨rfl, ?_, by decide⟩
  rfl

/-- C1 (amended): for every positive price series, momentum signals are +1
where the lookback percentage change is defined and positive, -1 where it is
defined and ≤ 0, and 0 (not -1) on the warm-up timestamps where it is still
undefined. -/
theorem momentumSignals_spec (k : ℕ) (p : List ℚ) (hp : ∀ x ∈ p, 0 < x)
    (i : ℕ) (hi : i < p.length) :
    (momentumSignals k p).length = p.length ∧
    (i < k → pctChangeAt k p i = none ∧ (momentumSignals k p).get? i = some 0) ∧
    (k ≤ i → ∀ m : ℚ, pctChangeAt k p i = some m →
      ((0 < m → (momentumSignals k p).get? i = some 1) ∧
       (m ≤ 0 → (momentumSignals k p).get? i = some (-1)))) := by
  refine ⟨momentumSignals_length k p, ?_, ?_⟩
  · intro hik
    have hnone : pctChangeAt k p i = none := by
      unfold pctChangeAt
      rw [if_neg (by omega)]
    refine ⟨hnone, ?_⟩
    rw [momentumSignals_get? k p i hi, hnone]
  · intro _ m hm
    constructor
    · intro hpos
      rw [momentumSignals_get? k p i hi, hm]
      simp [hpos]
    · intro hneg
      rw [momentumSignals_get? k p i hi, hm]
      simp [not_lt.mpr hneg]

/-- C1 (witness): momentum with lookback 1 on prices [1, 2, 1]; at timestamp 2
the percentage change is -1/2 ≤ 0 and the signal is -1. -/
theorem momentumSignals_spec_witness :
    (momentumSignals 1 [1, 2, 1]).get? 2 = some (-1) := by
  have hp : ∀ x ∈ ([1, 2, 1] : List ℚ), 0 < x := by norm_num
  have h := momentumSignals_spec 1 [1, 2, 1] hp 2 (by norm_num)
  have hm : pctChangeAt 1 [1, 2, 1] 2 = some (-(1 / 2)) := by
    simp [pctChangeAt]
    norm_num
  exact (h.2.2 (by norm_num) (-(1 / 2)) hm).2 (by norm_num)

/-- C5: get_positions keeps the timestamp domain, puts 0 at the first
timestamp, and copies the previous signal to every later timestamp. -/
theorem getPositions_spec (signals : List ℤ) :
    (getPositions signals).length = signals.length ∧
    (signals ≠ [] → (getPositions signals).get? 0 = some 0) ∧
    (∀ t : ℕ, 1 ≤ t → t < signals.length →
      (getPositions signals).get? t = (signals.get? (t - 1)).map (fun z : ℤ => (z : ℚ))) := by
  refine ⟨getPositions_length signals, getPositions_get?_zero signals, ?_⟩
  intro t h1 hlen
  obtain ⟨u, rfl⟩ : ∃ u, t = u + 1 := ⟨t - 1, by omega⟩
  simpa using getPositions_get?_succ signals u hlen

/-- C5 (witness): for the signal series [5, 7], the position at timestamp 1 is
the signal 5 of timestamp 0. -/
theorem getPositions_spec_witness :
    (getPositions [5, 7]).get? 1 = some 5 := by
  have h := (getPositions_spec [5, 7]).2.2 1 (by decide) (by decide)
  simpa using h

theorem rollingMeanAt_eq_none_iff (w : ℕ) (p : List ℚ) (i : ℕ) (hw : 1 ≤ w)
    (hi : i < p.length) :
    rollingMeanAt w p i = none ↔ i + 1 < w := by
  unfold rollingMeanAt
  rcases Nat.lt_or_ge (i + 1) w with h | h
  · rw [if_neg (by omega)]
    simp [h]
  · rw [if_pos ⟨hw, by omega, hi⟩]
    simp
    omega

/-- C6: crossover signals keep the timestamp domain; are 0 wherever either
rolling mean is undefined (exactly the timestamps with insufficient history
for that window); and where both means are defined are +1 when the fast mean
strictly exceeds the slow mean and -1 when it is ≤ (ties to -1). -/
theorem crossoverSignals_spec (fast slow : ℕ) (p : List ℚ)
    (hf : 1 ≤ fast) (hs : 1 ≤ slow) (i : ℕ) (hi : i < p.length) :
    (crossoverSignals fast slow p).length = p.length ∧
    ((rollingMeanAt fast p i = none ∨ rollingMeanAt slow p i = none) →
      (crossoverSignals fast slow p).get? i = some 0) ∧
    (rollingMeanAt fast p i = none ↔ i + 1 < fast) ∧
    (rollingMeanAt slow p i = none ↔ i + 1 < slow) ∧
    (∀ f s : ℚ, rollingMeanAt fast p i = some f → rollingMeanAt slow p i = some s →
      ((s < f → (crossoverSignals fast slow p).get? i = some 1) ∧
       (f ≤ s → (crossoverSignals fast slow p).get? i = some (-1)))) := by
  refine ⟨crossoverSignals_length fast slow p, ?_,
    rollingMeanAt_eq_none_iff fast p i hf hi, rollingMeanAt_eq_none_iff slow p i hs hi, ?_⟩
  · intro hnone
    rw [crossoverSignals_get? fast slow p i hi]
    rcases hnone with h | h
    · rw [h]
    · rw [h]
      cases rollingMeanAt fast p i <;> rfl
  · intro f s hf' hs'
    constructor
    · intro hlt
      rw [crossoverSignals_get? fast slow p i hi, hf', hs']
      simp [hlt]
    · intro hle
      rw [crossoverSignals_get? fast slow p i hi, hf', hs']
      simp [not_lt.mpr hle]

/-- C6 (witness): fast 2, slow 3 on prices [10, 11, 12, 11]; at timestamp 2 the
fast mean 23/2 exceeds the slow mean 11, and the signal is +1. -/
theorem crossoverSignals_spec_witness :
    (crossoverSignals 2 3 [10, 11, 12, 11]).get? 2 = some 1 := by
  have h := crossoverSignals_spec 2 3 [10, 11, 12, 11] (by norm_num) (by norm_num) 2 (by norm_num)
  have hf' : rollingMeanAt 2 [10, 11, 12, 11] 2 = some (23 / 2) := by
    simp [rollingMeanAt, meanQ]
    norm_num
  have hs' : rollingMeanAt 3 [10, 11, 12, 11] 2 = some 11 := by
    simp [rollingMeanAt, meanQ]
    norm_num
  exact (h.2.2.2.2 (23 / 2) 11 hf' hs').1 (by norm_num)

theorem zscoreAt_eq_none_iff (w : ℕ) (p : List ℚ) (i : ℕ) (hw : 1 ≤ w)
    (hi : i < p.length) :
    zscoreAt w p i = none ↔ (i + 1 < w ∨ w < 2 ∨ rollingVarAt w p i = some 0) := by
  unfold zscoreAt
  by_cases h1 : w ≤ i + 1
  · by_cases h2 : 2 ≤ w
    · obtain ⟨μ, hμ⟩ : ∃ μ, rollingMeanAt w p i = some μ := by
        unfold rollingMeanAt
        rw [if_pos ⟨hw, h1, hi⟩]
        exact ⟨_, rfl⟩
      obtain ⟨v, hv⟩ : ∃ v, rollingVarAt w p i = some v := by
        unfold rollingVarAt
        rw [if_pos ⟨h2, h1, hi⟩]
        exact ⟨_, rfl⟩
      rw [hμ, hv]
      by_cases h0 : v = 0
      · simp [h0]
      · simp [h0]
        omega
    · have hv : rollingVarAt w p i = none := by
        unfold rollingVarAt
        rw [if_neg (by omega)]
      rw [hv]
      cases hm : rollingMeanAt w p i <;> simp <;> omega
  · have hm : rollingMeanAt w p i = none := by
      unfold rollingMeanAt
      rw [if_neg (by omega)]
    have hv : rollingVarAt w p i = none := by
      unfold rollingVarAt
      rw [if_neg (by omega)]
    rw [hm, hv]
    simp
    omega

/-- C7: mean-reversion signals keep the timestamp domain; the z-score is NaN
exactly on insufficient history, a degenerate window of one observation, or a
zero rolling standard deviation, and such timestamps get signal 0 without any
error; where the z-score is defined the signal is -1 above the threshold, +1
below its negation, and 0 in between.  Thresholds are nonnegative as in the
strategy's intended configuration (typically 2.0). -/
theorem meanReversionSignals_spec (w : ℕ) (threshold : ℚ) (p : List ℚ)
    (hw : 1 ≤ w) (hθ : 0 ≤ threshold) (i : ℕ) (hi : i < p.length) :
    (meanReversionSignals w threshold p).length = p.length ∧
    (zscoreAt w p i = none ↔ (i + 1 < w ∨ w < 2 ∨ rollingVarAt w p i = some 0)) ∧
    (zscoreAt w p i = none → (meanReversionSignals w threshold p).get? i = some 0) ∧
    (∀ z : ℝ, zscoreAt w p i = some z →
      (((threshold : ℝ) < z → (meanReversionSignals w threshold p).get? i = some (-1)) ∧
       (z < -(threshold : ℝ) → (meanReversionSignals w threshold p).get? i = some 1) ∧
       (-(threshold : ℝ) ≤ z → z ≤ (threshold : ℝ) →
         (meanReversionSignals w threshold p).get? i = some 0))) := by
  refine ⟨meanReversionSignals_length w threshold p, zscoreAt_eq_none_iff w p i hw hi, ?_, ?_⟩
  · intro hnone
    rw [meanReversionSignals_get? w threshold p i hi, hnone]
  · intro z hz
    have hθ' : (0 : ℝ) ≤ (threshold : ℝ) := by exact_mod_cast hθ
    refine ⟨?_, ?_, ?_⟩
    · intro hgt
      rw [meanReversionSignals_get? w threshold p i hi, hz]
      have hnot : ¬ z < -(threshold : ℝ) := by linarith
      simp [hnot, hgt]
    · intro hlt
      rw [meanReversionSignals_get? w threshold p i hi, hz]
      simp [hlt]
    · intro hge hle
      rw [meanReversionSignals_get? w threshold p i hi, hz]
      have h1 : ¬ z < -(threshold : ℝ) := not_lt.mpr hge
      have h2 : ¬ (threshold : ℝ) < z := not_lt.mpr hle
      simp [h1, h2]

/-- C7 (witness): window 2, threshold 2 on the constant-start prices
[5, 5, 9]; at timestamp 1 the rolling standard deviation is exactly 0, the
z-score is NaN, and the signal is 0. -/
theorem meanReversionSignals_spec_witness :
    (meanReversionSignals 2 2 [5, 5, 9]).get? 1 = some 0 := by
  have h := meanReversionSignals_spec 2 2 [5, 5, 9] (by norm_num) (by norm_num) 1 (by norm_num)
  have hv : rollingVarAt 2 [5, 5, 9] 1 = some 0 := by
    simp [rollingVarAt, meanQ]
  exact h.2.2.1 (h.2.1.mpr (Or.inr (Or.inr hv)))

theorem strategyReturns_get?_zero (p r : ℚ) (ps rs : List ℚ) (c : ℚ) :
    (strategyReturns (p :: ps) (r :: rs) c).get? 0 = some none := rfl

theorem strategyReturns_get?_succ (pos rets : List ℚ) (c : ℚ) (i : ℕ) (a b r : ℚ)
    (ha : pos.get? (i + 1) = some a) (hb : pos.get? i = some b)
    (hr : rets.get? (i + 1) = some r) :
    (strategyReturns pos rets c).get? (i + 1) = some (some (a * r - |a - b| * c)) := by
  have hlen : i + 1 < pos.length := by
    by_contra hc
    rw [List.get?_eq_none.mpr (by omega)] at ha
    cases ha
  rw [strategyReturns_get?, ha, hr, costsList_get?, diffList_get?_succ pos i hlen, ha, hb]
  rfl

/-- C2 (counterexample): with all market returns zero (positions [0, 1],
returns [0, 0], cost rate 1/1000), the cost at timestamp 1 — where the
position changed — is 1/1000 and the net return is -1/1000, not the zero the
claim asserts. -/
theorem flat_market_counterexample :
    (costsList [0, 1] (1 / 1000)).get? 1 = some (some (1 / 1000)) ∧
    (strategyReturns [0, 1] [0, 0] (1 / 1000)).get? 1 = some (some (-(1 / 1000))) ∧
    ((1 : ℚ) / 1000) ≠ 0 := by
  refine ⟨?_, ?_, by norm_num⟩
  · norm_num [costsList, tradesList, diffList, List.zipWith]
  · norm_num [strategyReturns, costsList, tradesList, diffList, List.zipWith]

/-- C2 (amended): with all market returns zero the gross return is zero at
every timestamp, but the net return is the negated transaction cost: NaN at
the first timestamp (the `diff` NaN), and `-(|Δposition| × cost_rate)` at
every later timestamp — zero exactly when the position did not change or the
cost rate is zero, not regardless of position changes. -/
theorem flat_market_spec (pos rets : List ℚ) (c : ℚ) (hz : ∀ r ∈ rets, r = 0) :
    (pos ≠ [] → rets ≠ [] → (strategyReturns pos rets c).get? 0 = some none) ∧
    (∀ i : ℕ, ∀ a b : ℚ, pos.get? (i + 1) = some a → pos.get? i = some b →
      i + 1 < rets.length →
      (strategyReturns pos rets c).get? (i + 1) = some (some (-(|a - b| * c)))) := by
  constructor
  · intro hp hr
    cases pos with
    | nil => exact absurd rfl hp
    | cons p ps =>
      cases rets with
      | nil => exact absurd rfl hr
      | cons r rs => exact strategyReturns_get?_zero p r ps rs c
  · intro i a b ha hb hilen
    obtain ⟨r, hr⟩ : ∃ r, rets.get? (i + 1) = some r := by
      cases h : rets.get? (i + 1) with
      | none =>
        rw [List.get?_eq_none] at h
        omega
      | some r => exact ⟨r, rfl⟩
    have hr0 : r = 0 := hz r (List.get?_mem hr)
    rw [strategyReturns_get?_succ pos rets c i a b r ha hb hr, hr0]
    have : a * 0 - |a - b| * c = -(|a - b| * c) := by ring
    rw [this]

/-- C2 (witness): positions [1, 1, 0], flat returns [0, 0, 0], cost rate 2; at
timestamp 2 the position changed from 1 to 0 and the net return is -2. -/
theorem flat_market_spec_witness :
    (strategyReturns [1, 1, 0] [0, 0, 0] 2).get? 2 = some (some (-2)) := by
  have h := (flat_market_spec [1, 1, 0] [0, 0, 0] 2 (by norm_num)).2 1 0 1
    (by norm_num) (by norm_num) (by norm_num)
  simpa using h

/-- C3 (counterexample): `positions.diff()` leaves NaN at the first row, so for
the one-element position series [1] the trade indicator and the cost at the
first timestamp are NaN — not |1 - 0| and |1 - 0| × cost_rate as the claim
asserts; likewise for position 0 the cost is NaN, not 0. -/
theorem first_trade_counterexample :
    (tradesList [1]).get? 0 = some none ∧
    (costsList [1] (1 / 1000)).get? 0 = some none ∧
    (costsList [0] (1 / 1000)).get? 0 = some none ∧
    (none : Option ℚ) ≠ some (|(1 : ℚ) - 0| * (1 / 1000)) ∧
    (none : Option ℚ) ≠ some 0 := by
  refine ⟨rfl, rfl, rfl, by simp, by simp⟩

/-- C3 (amended): the trade indicator, the cost and hence the net return at
the first timestamp of the aligned positions series are NaN (pandas `diff`
has no implicit 0 predecessor); the first-row cost is therefore not charged —
the NaN net return is later dropped by `dropna`, whatever position[0] is. -/
theorem first_trade_spec (pos rets : List ℚ) (c : ℚ) (hp : pos ≠ []) :
    (tradesList pos).get? 0 = some none ∧
    (costsList pos c).get? 0 = some none ∧
    (rets ≠ [] → (strategyReturns pos rets c).get? 0 = some none) := by
  cases pos with
  | nil => exact absurd rfl hp
  | cons p ps =>
    refine ⟨rfl, rfl, ?_⟩
    intro hr
    cases rets with
    | nil => exact absurd rfl hr
    | cons r rs => exact strategyReturns_get?_zero p r ps rs c

/-- C3 (witness): position series [1], return series [2], cost rate 3: the net
return at the first timestamp is NaN. -/
theorem first_trade_spec_witness :
    (strategyReturns [1] [2] 3).get? 0 = some none :=
  (first_trade_spec [1] [2] 3 (by simp)).2.2 (by simp)

/-- C4 (counterexample): with cost_rate 0 and the always-+1 position series
[1] on the return series [5], the net return at the first timestamp is NaN
(the NaN trade indicator survives multiplication by 0), not the market
return 5. -/
theorem zero_cost_counterexample :
    (strategyReturns [1] [5] 0).get? 0 = some none ∧
    (none : Option ℚ) ≠ some 5 := by
  refine ⟨rfl, by simp⟩

/-- C4 (amended): with cost_rate 0 and position +1 everywhere, the net return
equals the market return at every timestamp except the first, where it is NaN
(and later dropped by `dropna`). -/
theorem zero_cost_spec (pos rets : List ℚ) (hpos : ∀ x ∈ pos, x = 1) :
    (pos ≠ [] → rets ≠ [] → (strategyReturns pos rets 0).get? 0 = some none) ∧
    (∀ i : ℕ, ∀ r : ℚ, rets.get? (i + 1) = some r → i + 1 < pos.length →
      (strategyReturns pos rets 0).get? (i + 1) = some (some r)) := by
  constructor
  · intro hp hr
    cases pos with
    | nil => exact absurd rfl hp
    | cons p ps =>
      cases rets with
      | nil => exact absurd rfl hr
      | cons r rs => exact strategyReturns_get?_zero p r ps rs 0
  · intro i r hr hilen
    obtain ⟨a, ha⟩ : ∃ a, pos.get? (i + 1) = some a := by
      cases h : pos.get? (i + 1) with
      | none =>
        rw [List.get?_eq_none] at h
        omega
      | some a => exact ⟨a, rfl⟩
    obtain ⟨b, hb⟩ : ∃ b, pos.get? i = some b := by
      cases h : pos.get? i with
      | none =>
        rw [List.get?_eq_none] at h
        omega
      | some b => exact ⟨b, rfl⟩
    have ha1 : a = 1 := hpos a (List.get?_mem ha)
    have hb1 : b = 1 := hpos b (List.get?_mem hb)
    rw [strategyReturns_get?_succ pos rets 0 i a b r ha hb hr, ha1, hb1]
    have : (1 : ℚ) * r - |1 - 1| * 0 = r := by
      simp
    rw [this]

/-- C4 (witness): positions [1, 1], returns [3, 5], cost rate 0: the net
return at timestamp 1 is the market return 5. -/
theorem zero_cost_spec_witness :
    (strategyReturns [1, 1] [3, 5] 0).get? 1 = some (some 5) := by
  have h := (zero_cost_spec [1, 1] [3, 5] (by norm_num)).2 0 5 (by norm_num) (by norm_num)
  simpa using h

/-- C10: `run` and `_calculate_metrics` never read `self.initial_capital`, so
two Backtester instances that differ only in the initial_capital constructor
argument produce identical result bundles — signals, positions, net returns,
equity and benchmark curves, and the metrics table — on the same strategy and
data. -/
theorem runBacktest_initial_capital_irrelevant (ic₁ ic₂ tc : ℚ)
    (sig : List ℚ → List ℤ) (prices rets : List ℚ) :
    runBacktest ic₁ tc sig prices rets = runBacktest ic₂ tc sig prices rets := rfl

theorem getLast?_cons_isSome {α : Type} (a : α) (l : List α) :
    ((a :: l).getLast?).isSome := by
  induction l generalizing a with
  | nil => rfl
  | cons b t ih =>
    rw [List.getLast?_cons_cons]
    exact ih b

/-- C9 (counterexample): a length-one strategy-return series whose only entry
is NaN has zero observations after `dropna`, yet `_calculate_metrics` does not
fail: `cum_returns` is non-empty, `iloc[-1]` succeeds, and a metrics table is
returned. -/
theorem empty_after_dropna_counterexample :
    (([none] : List (Option ℚ)).filterMap id).length = 0 ∧
    calcMetrics [none] [some 1] ≠ none := by
  refine ⟨rfl, ?_⟩
  simp [calcMetrics, cumulativeReturns, cumprodGo]

theorem cumulativeReturns_eq_nil_iff (s : List (Option ℚ)) :
    cumulativeReturns s = [] ↔ s = [] := by
  cases s with
  | nil => simp [cumulativeReturns, cumprodGo]
  | cons o t => cases o <;> simp [cumulativeReturns, cumprodGo]

/-- C9 (amended): the metrics computation fails exactly when the raw
strategy-return series (or the stored benchmark curve) has zero rows — there
`iloc[-1]` raises on an empty series.  A non-empty series all of whose rows
are NaN, which has zero observations after dropping NaN, is not rejected: a
metrics table is still returned (with NaN total return and guarded zeros). -/
theorem calcMetrics_eq_none_iff (s b : List (Option ℚ)) :
    calcMetrics s b = none ↔ s = [] ∨ b = [] := by
  cases s with
  | nil => simp [calcMetrics, cumulativeReturns, cumprodGo]
  | cons o t =>
    obtain ⟨x, l, hx⟩ : ∃ x lr, cumulativeReturns (o :: t) = x :: lr := by
      cases o <;> exact ⟨_, _, rfl⟩
    obtain ⟨z, hz⟩ := Option.isSome_iff_exists.mp (getLast?_cons_isSome x l)
    cases b with
    | nil => simp [calcMetrics, hx, hz]
    | cons ob tb =>
      obtain ⟨y, hy⟩ := Option.isSome_iff_exists.mp (getLast?_cons_isSome ob tb)
      simp [calcMetrics, hx, hz, hy]

/-- C9 (witness): on the genuinely empty series the computation does fail. -/
theorem calcMetrics_eq_none_iff_witness : calcMetrics [] [] = none :=
  (calcMetrics_eq_none_iff [] []).mpr (Or.inl rfl)

theorem minQ?_mem (l : List ℚ) : ∀ m : ℚ, minQ? l = some m → m ∈ l := by
  induction l with
  | nil => intro m h; cases h
  | cons x t ih =>
    intro m h
    rw [minQ?] at h
    cases hmt : minQ? t with
    | none =>
      rw [hmt] at h
      have hxm : x = m := by simpa using h
      rw [← hxm]
      exact List.mem_cons_self x t
    | some mt =>
      rw [hmt] at h
      have hmin : min x mt = m := by simpa using h
      rcases min_cases x mt with ⟨heq, -⟩ | ⟨heq, -⟩
      · rw [← hmin, heq]
        exact List.mem_cons_self x t
      · rw [← hmin, heq]
        exact List.mem_cons_of_mem x (ih mt hmt)

theorem minQ?_isSome (l : List ℚ) (h : l ≠ []) : ∃ m, minQ? l = some m := by
  cases l with
  | nil => exact absurd rfl h
  | cons x t => exact ⟨_, rfl⟩

/-- Invariant of the equity / running-max / drawdown triple: if the running
product so far is positive, the running max (if any) is positive, and every
remaining non-NaN factor is positive, then every non-NaN drawdown cell lies in
(-1, 0]; and there is at least one such cell as soon as some factor is
non-NaN. -/
theorem ddCells_bounds (xs : List (Option ℚ)) (acc : ℚ) (cur : Option ℚ)
    (hacc : 0 < acc) (hcur : ∀ y : ℚ, cur = some y → 0 < y)
    (hx : ∀ x : ℚ, some x ∈ xs → 0 < x) :
    (∀ d : ℚ,
      d ∈ (List.zipWith ddCell (cumprodGo acc xs)
            (cummaxGo cur (cumprodGo acc xs))).filterMap id → -1 < d ∧ d ≤ 0) ∧
    ((∃ x : ℚ, some x ∈ xs) →
      (List.zipWith ddCell (cumprodGo acc xs)
        (cummaxGo cur (cumprodGo acc xs))).filterMap id ≠ []) := by
  induction xs generalizing acc cur with
  | nil => simp [cumprodGo, cummaxGo]
  | cons o t ih =>
    cases o with
    | none =>
      have ht := ih acc cur hacc hcur (fun x hmem => hx x (List.mem_cons_of_mem _ hmem))
      constructor
      · intro d hd
        refine ht.1 d ?_
        simpa [cumprodGo, cummaxGo, ddCell] using hd
      · intro hex
        obtain ⟨x, hxm⟩ := hex
        have hxt : some x ∈ t := by
          rcases List.mem_cons.mp hxm with hcontra | htail
          · cases hcontra
          · exact htail
        have := ht.2 ⟨x, hxt⟩
        simpa [cumprodGo, cummaxGo, ddCell] using this
    | some x =>
      have hx0 : 0 < x := hx x (List.mem_cons_self _ _)
      have he : 0 < acc * x := mul_pos hacc hx0
      obtain ⟨m, hmeq, hme, hmpos⟩ :
          ∃ m : ℚ, cummaxGo cur (some (acc * x) :: cumprodGo (acc * x) t) =
              some m :: cummaxGo (some m) (cumprodGo (acc * x) t) ∧
            acc * x ≤ m ∧ 0 < m := by
        cases cur with
        | none => exact ⟨acc * x, rfl, le_refl _, he⟩
        | some c =>
          exact ⟨max c (acc * x), rfl, le_max_right _ _,
            lt_of_lt_of_le he (le_max_right _ _)⟩
      have hm0 : m ≠ 0 := ne_of_gt hmpos
      have hhead : ddCell (some (acc * x)) (some m) = some ((acc * x - m) / m) := by
        simp [ddCell, hm0]
      have hdh : -1 < (acc * x - m) / m ∧ (acc * x - m) / m ≤ 0 := by
        constructor
        · rw [lt_div_iff₀ hmpos]
          linarith
        · rw [div_nonpos_iff]
          exact Or.inr ⟨by linarith, le_of_lt hmpos⟩
      have ht := ih (acc * x) (some m) he
        (fun y hy => (Option.some_inj.mp hy) ▸ hmpos)
        (fun y hmem => hx y (List.mem_cons_of_mem _ hmem))
      have hcons : cumprodGo acc (some x :: t) =
          some (acc * x) :: cumprodGo (acc * x) t := rfl
      constructor
      · intro d hd
        rw [hcons, hmeq, List.zipWith_cons_cons, hhead] at hd
        have hd2 : d = (acc * x - m) / m ∨
            some d ∈ List.zipWith ddCell (cumprodGo (acc * x) t)
              (cummaxGo (some m) (cumprodGo (acc * x) t)) := by
          simpa using hd
        rcases hd2 with rfl | htl
        · exact hdh
        · exact ht.1 d (List.mem_filterMap.mpr ⟨some d, htl, rfl⟩)
      · intro _
        rw [hcons, hmeq, List.zipWith_cons_cons, hhead]
        simp

/-- C8 (counterexample): a run-reachable configuration — aligned positions
[0, 1, -1] (shifted ±1 signals), market returns [0, 1, 2] (prices
1, 1, 2, 6), cost rate 0 — gives net returns [NaN, 1, -2]; the equity curve is
[NaN, 2, -2], its running max [NaN, 2, 2], and Max Drawdown is -2 < -1:
nothing stops a net return ≤ -1 (a short position while the market triples)
from pushing the metric below -1. -/
theorem max_drawdown_counterexample :
    maxDrawdownOf (cumulativeReturns (strategyReturns [0, 1, -1] [0, 1, 2] 0)) =
      some (-2) ∧
    ¬ ((-1 : ℚ) ≤ -2) := by
  constructor
  · norm_num [strategyReturns, costsList, tradesList, diffList, List.zipWith,
      cumulativeReturns, cumprodGo, maxDrawdownOf, minimumSkipNA, drawdownList,
      ddCell, cummaxGo, minQ?]
  · norm_num

/-- C8 (amended): whenever the net-return series has at least one non-NaN
entry and every non-NaN net return is strictly greater than -1 (so equity
stays positive), the Max Drawdown computed by `_calculate_metrics` is defined
and satisfies -1 ≤ MaxDrawdown ≤ 0.  Without the > -1 bound the metric can
fall below -1. -/
theorem maxDrawdown_bounds (sr : List (Option ℚ))
    (hdef : ∃ r : ℚ, some r ∈ sr)
    (hgt : ∀ r : ℚ, some r ∈ sr → -1 < r) :
    ∃ m : ℚ, maxDrawdownOf (cumulativeReturns sr) = some m ∧ -1 ≤ m ∧ m ≤ 0 := by
  have hx : ∀ x : ℚ, some x ∈ sr.map (Option.map (fun r => 1 + r)) → 0 < x := by
    intro x hmem
    obtain ⟨o, ho, hoeq⟩ := List.mem_map.mp hmem
    cases o with
    | none => cases hoeq
    | some r =>
      have hr : x = 1 + r := by
        simpa using hoeq.symm
      have := hgt r ho
      rw [hr]
      linarith
  have hex : ∃ x : ℚ, some x ∈ sr.map (Option.map (fun r => 1 + r)) := by
    obtain ⟨r, hr⟩ := hdef
    exact ⟨1 + r, List.mem_map.mpr ⟨some r, hr, rfl⟩⟩
  have hb := ddCells_bounds (sr.map (Option.map (fun r => 1 + r))) 1 none
    one_pos (fun y hy => by cases hy) hx
  have hne := hb.2 hex
  obtain ⟨m, hm⟩ := minQ?_isSome _ hne
  have hmem := minQ?_mem _ m hm
  have hbounds := hb.1 m hmem
  refine ⟨m, ?_, le_of_lt hbounds.1, hbounds.2⟩
  rw [maxDrawdownOf, minimumSkipNA, drawdownList, cumulativeReturns]
  exact hm

/-- C8 (witness): the one-entry net-return series [-1/2] is non-empty, every
entry exceeds -1, and its Max Drawdown is defined and lies in [-1, 0]. -/
theorem maxDrawdown_bounds_witness :
    ∃ m : ℚ, maxDrawdownOf (cumulativeReturns [some (-(1 / 2))]) = some m ∧
      -1 ≤ m ∧ m ≤ 0 := by
  refine maxDrawdown_bounds [some (-(1 / 2))] ⟨-(1 / 2), by simp⟩ ?_
  intro r hr
  simp at hr
  rw [hr]
  norm_num

end TradingModel
